import Mathlib

/-
Verification development for the mbox-cli-viewer repository.

The two source files are embedded shallowly:
  - create_index.py : the segmenter iterate_mbox_messages (byte-offset
    segmentation of an mbox archive) and the indexer create_index
    (SQLite store with an FTS5 mirror, INSERT OR IGNORE on message_id,
    lastrowid-guarded full-text insert).
  - search_index.py : the query sanitizer, the view_email retrieval
    path, and the interactive pagination loop of search_and_display.

Bytes are natural numbers; a file is its list of bytes.  The SQLite
store is a pair of row lists plus the connection-level last-insert
rowid (0 on a fresh connection, updated by every successful insert,
untouched by an ignored INSERT OR IGNORE, exactly as sqlite3 behaves).
-/

namespace MboxViewer

abbrev Byte := Nat

def newlineByte : Byte := 10

/-- One step of binary-mode line iteration: the first line of the byte
stream (up to and including a newline byte, or the rest of the stream)
together with the remaining bytes. -/
def breakLine : List Byte → List Byte × List Byte
  | [] => ([], [])
  | b :: bs =>
    if b = newlineByte then ([b], bs)
    else (b :: (breakLine bs).1, (breakLine bs).2)

/-- Line iteration over the byte stream, as `for line in f` performs it
in binary mode, accumulator-style so that it computes by reduction. -/
def splitLinesAux : List Byte → List Byte → List (List Byte)
  | [], acc => if acc.isEmpty then [] else [acc]
  | b :: bs, acc =>
    if b = newlineByte then (acc ++ [b]) :: splitLinesAux bs []
    else splitLinesAux bs (acc ++ [b])

def splitLines (bs : List Byte) : List (List Byte) :=
  splitLinesAux bs []

/-- The 5-byte message marker b'From '. -/
def fromMarker : List Byte := [70, 114, 111, 109, 32]

/-- line.startswith(b'From '). -/
def startsWithFrom (line : List Byte) : Bool :=
  line.take 5 == fromMarker

/-- The loop body of iterate_mbox_messages.  `pos` is the stream
position before the next line is read (so `f.tell()` after reading
`line` is `pos + line.length`, and the yielded end offset
`f.tell() - len(line)` is `pos`); `start` is start_offset; `buf` is
`b''.join(message_lines)`. -/
def segLoop : List (List Byte) → Nat → Nat → List Byte → List (Nat × Nat × List Byte)
  | [], pos, start, buf =>
    if buf.isEmpty then [] else [(start, pos, buf)]
  | line :: rest, pos, start, buf =>
    if startsWithFrom line then
      if buf.isEmpty then
        segLoop rest (pos + line.length) start (buf ++ line)
      else
        (start, pos, buf) :: segLoop rest (pos + line.length) pos line
    else
      segLoop rest (pos + line.length) start (buf ++ line)

/-- iterate_mbox_messages: the (start_offset, end_offset, raw_bytes)
triples yielded for the given file contents. -/
def iterate_mbox_messages (file : List Byte) : List (Nat × Nat × List Byte) :=
  segLoop (splitLines file) 0 0 []

def segOffsets (msgs : List (Nat × Nat × List Byte)) : List (Nat × Nat) :=
  msgs.map (fun m => (m.1, m.2.1))

/-- `covers lo size ps` holds when the pairs in `ps` tile the interval
`[lo, size)` exactly: each pair starts where the previous one ended,
every pair is strictly increasing, and the last end is `size`. -/
def covers : Nat → Nat → List (Nat × Nat) → Bool
  | lo, size, [] => lo == size
  | lo, size, (s, e) :: rest => (s == lo) && decide (lo < e) && covers e size rest

/-- A valid archive: the first line begins with the 5-byte marker. -/
def validArchive (file : List Byte) : Bool :=
  match splitLines file with
  | [] => false
  | l :: _ => startsWithFrom l

/-- No line of the file begins with the marker. -/
def hasNoFromLine (file : List Byte) : Bool :=
  (splitLines file).all (fun l => !startsWithFrom l)

/-- The seek-and-read of view_email: `size` bytes of the file starting
at offset `s`. -/
def readRange (file : List Byte) (s size : Nat) : List Byte :=
  (file.drop s).take size

/-- A concrete two-message archive used to instantiate the general
theorems: b"From a\nhi\nFrom b\nyo\n". -/
def exampleMbox : List Byte :=
  [70, 114, 111, 109, 32, 97, 10, 104, 105, 10,
   70, 114, 111, 109, 32, 98, 10, 121, 111, 10]

/-- The header/body fields extracted from one parsed message: msg_id
(with its missing-id fallback already applied), sender, subject, date
and the newline-joined body text. -/
structure EmailFields where
  message_id : String
  sender : String
  subject : String
  date : String
  body : String
deriving DecidableEq

/-- One row of the emails table. -/
structure EmailRow where
  id : Nat
  message_id : String
  sender : String
  subject : String
  date : String
  startOffset : Nat
  endOffset : Nat
deriving DecidableEq

/-- One entry of the email_fts full-text table (rowid pointing at the
emails row it mirrors). -/
structure FtsRow where
  rowid : Nat
  sender : String
  subject : String
  body : String
deriving DecidableEq

/-- The SQLite store plus the connection state the code observes:
lastInsertRowid is sqlite3_last_insert_rowid on the open connection,
0 when no insert has succeeded on it yet; an ignored INSERT OR IGNORE
leaves it untouched, which is what cur.lastrowid returns. -/
structure DBState where
  emails : List EmailRow
  fts : List FtsRow
  lastInsertRowid : Nat
deriving DecidableEq

def emptyDB : DBState := ⟨[], [], 0⟩

/-- The rowid SQLite assigns to a fresh row of a table with an INTEGER
PRIMARY KEY: one more than the largest existing rowid. -/
def nextId (db : DBState) : Nat :=
  (db.emails.map (fun r => r.id)).foldr max 0 + 1

def hasMessageId (db : DBState) (mid : String) : Bool :=
  db.emails.any (fun r => r.message_id == mid)

/-- INSERT OR IGNORE INTO emails: a duplicate message_id leaves the
table and lastInsertRowid unchanged; otherwise the row is appended and
lastInsertRowid becomes its fresh id. -/
def insertOrIgnoreEmail (db : DBState) (f : EmailFields) (s e : Nat) : DBState :=
  if hasMessageId db f.message_id then db
  else
    { emails := db.emails ++
        [⟨nextId db, f.message_id, f.sender, f.subject, f.date, s, e⟩],
      fts := db.fts,
      lastInsertRowid := nextId db }

/-- INSERT INTO email_fts (rowid, sender, subject, body). -/
def insertFts (db : DBState) (rowid : Nat) (f : EmailFields) : DBState :=
  { emails := db.emails,
    fts := db.fts ++ [⟨rowid, f.sender, f.subject, f.body⟩],
    lastInsertRowid := rowid }

/-- The insert block of create_index for one message: INSERT OR IGNORE
the record, read cur.lastrowid, and insert the full-text entry only
when last_id > 0. -/
def processMessage (db : DBState) (f : EmailFields) (s e : Nat) : DBState :=
  if (insertOrIgnoreEmail db f s e).lastInsertRowid > 0 then
    insertFts (insertOrIgnoreEmail db f s e)
      (insertOrIgnoreEmail db f s e).lastInsertRowid f
  else insertOrIgnoreEmail db f s e

/-- One segmented message as the indexing loop sees it, together with
the environment's behavior on it: parseOk is false when
parser.parsebytes (or the header/body extraction) raises, insertRaises
is true when the guarded insert block raises. -/
structure MboxMessage where
  startOffset : Nat
  endOffset : Nat
  parseOk : Bool
  insertRaises : Bool
  fields : EmailFields
deriving DecidableEq

/-- How a create_index run ends: normally, with the summary count and
the committed store, or through the run-level exception handler, which
calls sys.exit(1) before the commit. -/
inductive IndexOutcome where
  | normal (processed : Nat) (db : DBState)
  | fatalExit
deriving DecidableEq

/-- The message loop of create_index.  A parse exception escapes the
per-message try (which wraps only the inserts) and reaches the
run-level except, which exits with status 1; an insert exception is
caught, logged, and the loop continues; processed_count is incremented
as soon as the message parses. -/
def indexLoop : DBState → Nat → List MboxMessage → IndexOutcome
  | db, count, [] => .normal count db
  | db, count, m :: rest =>
    if m.parseOk then
      if m.insertRaises then indexLoop db (count + 1) rest
      else indexLoop (processMessage db m.fields m.startOffset m.endOffset)
        (count + 1) rest
    else .fatalExit

/-- create_index: open a fresh connection on the (possibly pre-existing)
store, so lastInsertRowid starts at 0, and run the message loop. -/
def create_index (db : DBState) (msgs : List MboxMessage) : IndexOutcome :=
  indexLoop { emails := db.emails, fts := db.fts, lastInsertRowid := 0 } 0 msgs

/-- The store create_index leaves behind on a run whose messages all
parse: the fold of the per-message insert block, skipping messages
whose insert block raises. -/
def runSkipping (db : DBState) (msgs : List MboxMessage) : DBState :=
  msgs.foldl
    (fun d m =>
      if m.insertRaises then d
      else processMessage d m.fields m.startOffset m.endOffset)
    db

/-- A run in which no message raises at all. -/
def cleanRun (msgs : List MboxMessage) : Bool :=
  msgs.all (fun m => m.parseOk && !m.insertRaises)

/-- Fields of two archive messages that share one Message-ID. -/
def dupA : EmailFields := ⟨"<dup@x>", "alice", "s1", "d1", "b1"⟩

def dupB : EmailFields := ⟨"<dup@x>", "bob", "s2", "d2", "b2"⟩

/-- An archive whose second message repeats the first one's
Message-ID; both parse and neither insert raises. -/
def dupMsgs : List MboxMessage :=
  [⟨0, 50, true, false, dupA⟩, ⟨50, 90, true, false, dupB⟩]

/-- The store create_index actually produces from dupMsgs: one email
row but two full-text entries, both carrying rowid 1. -/
def dupResultDB : DBState :=
  ⟨[⟨1, "<dup@x>", "alice", "s1", "d1", 0, 50⟩],
   [⟨1, "alice", "s1", "b1"⟩, ⟨1, "bob", "s2", "b2"⟩], 1⟩

def failFields : EmailFields := ⟨"<f@x>", "sf", "suf", "df", "bf"⟩

/-- A message on which parser.parsebytes raises. -/
def parseFailMsg : MboxMessage := ⟨0, 40, false, false, failFields⟩

/-- A clean two-message archive with distinct Message-IDs. -/
def twoMsgs : List MboxMessage :=
  [⟨0, 50, true, false, ⟨"<a@x>", "alice", "s1", "d1", "b1"⟩⟩,
   ⟨50, 90, true, false, ⟨"<b@x>", "bob", "s2", "d2", "b2"⟩⟩]

/-- Three messages whose middle one raises inside the insert block. -/
def insertFaultMsgs : List MboxMessage :=
  [⟨0, 50, true, false, ⟨"<a@x>", "alice", "s1", "d1", "b1"⟩⟩,
   ⟨50, 90, true, true, ⟨"<b@x>", "bob", "s2", "d2", "b2"⟩⟩,
   ⟨90, 130, true, false, ⟨"<c@x>", "carol", "s3", "d3", "b3"⟩⟩]

/-- search_term.replace('"', '""'): every embedded double quote is
doubled. -/
def replaceQuotes : List Char → List Char
  | [] => []
  | c :: cs =>
    if c = '"' then '"' :: '"' :: replaceQuotes cs
    else c :: replaceQuotes cs

/-- sanitized_term = '"' + search_term.replace('"', '""') + '"'. -/
def sanitizedTerm (s : List Char) : List Char :=
  '"' :: (replaceQuotes s ++ ['"'])

/-- How the full-text engine reads the inside of a double-quoted string
token, per the spec's literal-phrase contract: ordinary characters are
literal text, a doubled quote stands for one literal quote character,
a single quote closes the token.  Returns the literal content and the
input remaining after the closing quote. -/
def phraseBody : List Char → Option (List Char × List Char)
  | [] => none
  | c :: rest =>
    if c = '"' then
      match rest with
      | '"' :: rest2 =>
        match phraseBody rest2 with
        | some p => some ('"' :: p.1, p.2)
        | none => none
      | _ => some ([], rest)
    else
      match phraseBody rest with
      | some p => some (c :: p.1, p.2)
      | none => none

/-- A query the engine treats as one literal string: a complete
double-quoted token spanning the whole submitted term, no trailing
input left for operators or further syntax; the value is the literal
text the engine matches. -/
def fts5LiteralPhrase (s : List Char) : Option (List Char) :=
  match s with
  | '"' :: rest =>
    match phraseBody rest with
    | some (content, []) => some content
    | _ => none
  | _ => none

def DEFAULT_PAGE_SIZE : Nat := 20

/-- The mutable state of the interactive listing loop. -/
structure PageState where
  currentPage : Nat
  pageSize : Nat
deriving DecidableEq

/-- math.ceil(len(results) / current_page_size) for a positive page
size. -/
def totalPages (resultCount pageSize : Nat) : Nat :=
  (resultCount + pageSize - 1) / pageSize

/-- The loop-top re-clamp:
current_page = min(current_page, total_pages - 1). -/
def clampPage (resultCount : Nat) (s : PageState) : PageState :=
  ⟨min s.currentPage (totalPages resultCount s.pageSize - 1), s.pageSize⟩

/-- One row of the search result list:
(emails.id, sender, subject, date). -/
structure SearchRow where
  id : Nat
  sender : String
  subject : String
  date : String
deriving DecidableEq

def defaultRow : SearchRow := ⟨0, "", "", ""⟩

/-- The recognized interactive inputs: q, n, p, +, -, or an integer. -/
inductive UserChoice where
  | quitChoice
  | nextPage
  | prevPage
  | growSize
  | shrinkSize
  | selectNum (k : Int)
deriving DecidableEq

inductive ViewResult where
  | notFound
  | displayed (bytes : List Byte)
deriving DecidableEq

/-- view_email: look the id up in the emails table; a missing id
reports that the email could not be found and returns; otherwise seek
to start_offset and read end_offset - start_offset bytes for
display. -/
def viewEmail (db : DBState) (file : List Byte) (rowId : Nat) : ViewResult :=
  match db.emails.find? (fun r => r.id == rowId) with
  | none => .notFound
  | some r => .displayed (readRange file r.startOffset (r.endOffset - r.startOffset))

/-- What one loop iteration reports alongside the next state. -/
inductive LoopAction where
  | quitLoop
  | moved
  | alreadyLastPage
  | alreadyFirstPage
  | pageSizeChanged (newSize : Nat)
  | viewed (v : ViewResult)
  | invalidNumber
deriving DecidableEq

/-- The input-handling branch of the while loop of search_and_display,
acting on the state the loop top just displayed. -/
def handleChoice (db : DBState) (file : List Byte) (results : List SearchRow)
    (s : PageState) (c : UserChoice) : PageState × LoopAction :=
  match c with
  | .quitChoice => (s, .quitLoop)
  | .nextPage =>
    if s.currentPage < totalPages results.length s.pageSize - 1 then
      (⟨s.currentPage + 1, s.pageSize⟩, .moved)
    else (s, .alreadyLastPage)
  | .prevPage =>
    if s.currentPage > 0 then (⟨s.currentPage - 1, s.pageSize⟩, .moved)
    else (s, .alreadyFirstPage)
  | .growSize =>
    (⟨s.currentPage, min 100 (s.pageSize + 10)⟩,
     .pageSizeChanged (min 100 (s.pageSize + 10)))
  | .shrinkSize =>
    (⟨s.currentPage, max 10 (s.pageSize - 10)⟩,
     .pageSizeChanged (max 10 (s.pageSize - 10)))
  | .selectNum k =>
    if 0 ≤ k - 1 ∧ k - 1 < (results.length : Int) then
      (s, .viewed (viewEmail db file ((results.getD (k - 1).toNat defaultRow).id)))
    else (s, .invalidNumber)

/-- One full cycle of the interactive loop: the loop-top re-clamp, the
input handling, and the re-clamp the next loop top performs on the
resulting state (which is how a page-size change forces current_page
back into range). -/
def searchCycle (db : DBState) (file : List Byte) (results : List SearchRow)
    (s : PageState) (c : UserChoice) : PageState × LoopAction :=
  (clampPage results.length
      (handleChoice db file results (clampPage results.length s) c).1,
   (handleChoice db file results (clampPage results.length s) c).2)

/-- 25 identical search rows, for instantiating the pagination
theorems at the spec's 25-result example. -/
def rows25 : List SearchRow := List.replicate 25 defaultRow

/-- Three search rows with distinct row ids. -/
def threeRows : List SearchRow :=
  [⟨1, "alice", "s1", "d1"⟩, ⟨2, "bob", "s2", "d2"⟩, ⟨3, "carol", "s3", "d3"⟩]

/-- A store holding exactly one email row, with id 1. -/
def oneRowDB : DBState :=
  ⟨[⟨1, "<a@x>", "alice", "s1", "d1", 0, 50⟩], [⟨1, "alice", "s1", "b1"⟩], 0⟩

end MboxViewer

namespace MboxViewer

theorem breakLine_append (bs : List Byte) :
    (breakLine bs).1 ++ (breakLine bs).2 = bs := by
  induction bs with
  | nil => rfl
  | cons b bs ih =>
    simp only [breakLine]
    split
    · simp
    · simpa using ih

theorem splitLinesAux_flatten (bs : List Byte) :
    ∀ acc, (splitLinesAux bs acc).flatten = acc ++ bs := by
  induction bs with
  | nil =>
    intro acc
    simp only [splitLinesAux]
    split
    · rename_i h
      simp [List.isEmpty_iff.mp h]
    · simp
  | cons b bs ih =>
    intro acc
    simp only [splitLinesAux]
    split
    · simp [ih]
    · simp [ih]

theorem splitLines_flatten (bs : List Byte) : (splitLines bs).flatten = bs := by
  simpa using splitLinesAux_flatten bs []

theorem splitLinesAux_ne_nil (bs : List Byte) :
    ∀ acc, ∀ l ∈ splitLinesAux bs acc, l ≠ [] := by
  induction bs with
  | nil =>
    intro acc l hl
    simp only [splitLinesAux] at hl
    split at hl
    · simp at hl
    · rename_i h
      simp only [List.mem_singleton] at hl
      subst hl
      simpa [List.isEmpty_iff] using h
  | cons b bs ih =>
    intro acc l hl
    simp only [splitLinesAux] at hl
    split at hl
    · rcases List.mem_cons.mp hl with h | h
      · subst h; simp
      · exact ih [] l h
    · exact ih (acc ++ [b]) l hl

theorem splitLines_ne_nil (bs : List Byte) : ∀ l ∈ splitLines bs, l ≠ [] :=
  splitLinesAux_ne_nil bs []

theorem segLoop_covers (lines : List (List Byte)) :
    ∀ pos start buf, (∀ l ∈ lines, l ≠ []) → start + buf.length = pos →
      covers start (pos + lines.flatten.length)
        (segOffsets (segLoop lines pos start buf)) = true := by
  induction lines with
  | nil =>
    intro pos start buf _ hinv
    simp only [segLoop, List.flatten_nil, List.length_nil, Nat.add_zero]
    split
    · rename_i h
      have : buf = [] := List.isEmpty_iff.mp h
      subst this
      simp only [List.length_nil, Nat.add_zero] at hinv
      simp [segOffsets, covers, hinv]
    · rename_i h
      have hne : buf ≠ [] := by simpa [List.isEmpty_iff] using h
      have hlen : 0 < buf.length := List.length_pos.mpr hne
      simp [segOffsets, covers]
      omega
  | cons line rest ih =>
    intro pos start buf hl hinv
    have hline : line ≠ [] := hl line (List.mem_cons_self _ _)
    have hrest : ∀ l ∈ rest, l ≠ [] := fun l h => hl l (List.mem_cons_of_mem _ h)
    have hflat : ((line :: rest).flatten).length = line.length + rest.flatten.length := by
      simp
    simp only [segLoop]
    split
    · split
      · rename_i hFrom hEmpty
        have : buf = [] := List.isEmpty_iff.mp hEmpty
        subst this
        simp only [List.length_nil, Nat.add_zero] at hinv
        have := ih (pos + line.length) start ([] ++ line) hrest
          (by simp [← hinv])
        simpa [hflat, Nat.add_assoc] using this
      · rename_i hFrom hEmpty
        have hne : buf ≠ [] := by simpa [List.isEmpty_iff] using hEmpty
        have hlen : 0 < buf.length := List.length_pos.mpr hne
        have hrec := ih (pos + line.length) pos line hrest rfl
        simp only [segOffsets, List.map_cons] at hrec ⊢
        simp only [covers, Bool.and_eq_true, beq_iff_eq, decide_eq_true_eq, hflat]
        refine ⟨⟨trivial, by omega⟩, ?_⟩
        have harr : pos + (line.length + rest.flatten.length) =
            pos + line.length + rest.flatten.length := by omega
        rw [harr]
        exact hrec
    · rename_i hFrom
      have := ih (pos + line.length) start (buf ++ line) hrest
        (by simp [← hinv]; omega)
      simpa [hflat, Nat.add_assoc] using this

end MboxViewer

namespace MboxViewer

theorem segLoop_extract (lines : List (List Byte)) :
    ∀ pos start buf (C : List Byte), C.length = pos → buf = C.drop start →
      start ≤ pos →
      ∀ t ∈ segLoop lines pos start buf,
        t.2.2.length = t.2.1 - t.1 ∧
        t.2.2 = readRange (C ++ lines.flatten) t.1 (t.2.1 - t.1) := by
  induction lines with
  | nil =>
    intro pos start buf C hC hbuf hsp t ht
    simp only [segLoop] at ht
    split at ht
    · simp at ht
    · simp only [List.mem_singleton] at ht
      subst ht
      subst hbuf
      have hlen : (C.drop start).length = pos - start := by
        simp [hC]
      refine ⟨hlen, ?_⟩
      simp only [List.flatten_nil, List.append_nil, readRange]
      exact (List.take_of_length_le (le_of_eq hlen)).symm
  | cons line rest ih =>
    intro pos start buf C hC hbuf hsp t ht
    have hflat : (C ++ (line :: rest).flatten) = (C ++ line) ++ rest.flatten := by
      simp
    have hC' : (C ++ line).length = pos + line.length := by simp [hC]
    have hbuf' : buf ++ line = (C ++ line).drop start := by
      rw [List.drop_append_of_le_length (by omega), ← hbuf]
    simp only [segLoop] at ht
    split at ht
    · split at ht
      · rename_i hFrom hEmpty
        have := ih (pos + line.length) start (buf ++ line) (C ++ line)
          hC' hbuf' (by omega) t ht
        rwa [hflat]
      · rename_i hFrom hEmpty
        rcases List.mem_cons.mp ht with h | h
        · subst h
          have hlen : buf.length = pos - start := by
            rw [hbuf]; simp [hC]
          refine ⟨hlen, ?_⟩
          simp only [readRange]
          rw [hflat, List.append_assoc,
            List.drop_append_of_le_length (by omega)]
          rw [List.take_append_of_le_length (by simp [hC])]
          rw [hbuf]
          exact (List.take_of_length_le (by simp [hC])).symm
        · have hdrop : line = (C ++ line).drop pos := by
            rw [← hC, List.drop_left]
          have := ih (pos + line.length) pos line (C ++ line)
            hC' hdrop (by omega) t h
          rwa [hflat]
    · rename_i hFrom
      have := ih (pos + line.length) start (buf ++ line) (C ++ line)
        hC' hbuf' (by omega) t ht
      rwa [hflat]

end MboxViewer

namespace MboxViewer

theorem segLoop_noFrom (lines : List (List Byte)) :
    ∀ pos start buf, (∀ l ∈ lines, startsWithFrom l = false) →
      segLoop lines pos start buf =
        if (buf ++ lines.flatten).isEmpty then []
        else [(start, pos + lines.flatten.length, buf ++ lines.flatten)] := by
  induction lines with
  | nil =>
    intro pos start buf _
    simp [segLoop]
  | cons line rest ih =>
    intro pos start buf hl
    have hline : startsWithFrom line = false := hl line (List.mem_cons_self _ _)
    have hrest : ∀ l ∈ rest, startsWithFrom l = false :=
      fun l h => hl l (List.mem_cons_of_mem _ h)
    simp only [segLoop, hline, Bool.false_eq_true, if_false]
    rw [ih (pos + line.length) start (buf ++ line) hrest]
    simp only [List.flatten_cons, List.append_assoc, List.length_append,
      Nat.add_assoc]

/-- C1: for every valid archive (first line begins with b'From '), the
(start_offset, end_offset) pairs yielded by iterate_mbox_messages tile
the interval [0, file_size) exactly: the first starts at 0, each end
equals the next start, every pair is strictly increasing, and the last
end equals the file size. -/
theorem segmenter_contiguous_cover (file : List Byte)
    (_hvalid : validArchive file = true) :
    covers 0 file.length (segOffsets (iterate_mbox_messages file)) = true := by
  have := segLoop_covers (splitLines file) 0 0 [] (splitLines_ne_nil file) rfl
  rw [splitLines_flatten] at this
  simpa [iterate_mbox_messages] using this

theorem segmenter_contiguous_cover_witness :
    validArchive exampleMbox = true ∧
      covers 0 exampleMbox.length (segOffsets (iterate_mbox_messages exampleMbox)) = true :=
  ⟨by decide, segmenter_contiguous_cover exampleMbox (by decide)⟩

/-- C2: every triple (start_offset, end_offset, raw_bytes) yielded by
the segmenter satisfies len(raw_bytes) = end_offset - start_offset, and
reading that many bytes at start_offset from the file (the seek-and-read
view_email performs) reproduces raw_bytes byte-for-byte. -/
theorem segmenter_bytes_match_file (file : List Byte)
    (t : Nat × Nat × List Byte) (h : t ∈ iterate_mbox_messages file) :
    t.2.2.length = t.2.1 - t.1 ∧
      t.2.2 = readRange file t.1 (t.2.1 - t.1) := by
  have := segLoop_extract (splitLines file) 0 0 [] [] rfl rfl (Nat.le_refl 0) t h
  rwa [List.nil_append, splitLines_flatten] at this

theorem segmenter_bytes_match_file_witness :
    ((10, 20, [70, 114, 111, 109, 32, 98, 10, 121, 111, 10]) : Nat × Nat × List Byte)
        ∈ iterate_mbox_messages exampleMbox ∧
      ([70, 114, 111, 109, 32, 98, 10, 121, 111, 10] : List Byte).length = 20 - 10 ∧
      ([70, 114, 111, 109, 32, 98, 10, 121, 111, 10] : List Byte) =
        readRange exampleMbox 10 (20 - 10) :=
  ⟨by decide, segmenter_bytes_match_file exampleMbox (10, 20, [70, 114, 111, 109, 32, 98, 10, 121, 111, 10]) (by decide)⟩

/-- C3 counterexample: the file b"h\x0a" is non-empty, contains no line
beginning with b'From ', yet the segmenter yields one record rather
than zero. -/
theorem segmenter_no_marker_counterexample :
    hasNoFromLine [104, 10] = true ∧ ([104, 10] : List Byte) ≠ [] ∧
      iterate_mbox_messages [104, 10] ≠ [] := by
  decide

/-- C3 amended: the segmenter yields zero messages for an empty file,
but for a non-empty file with no marker line it yields exactly one
record spanning the whole file [0, file_size), not zero records. -/
theorem segmenter_empty_and_no_marker (file : List Byte)
    (hne : file ≠ []) (hnf : hasNoFromLine file = true) :
    iterate_mbox_messages [] = [] ∧
      iterate_mbox_messages file = [(0, file.length, file)] := by
  refine ⟨rfl, ?_⟩
  have hl : ∀ l ∈ splitLines file, startsWithFrom l = false := by
    intro l hlmem
    have := List.all_eq_true.mp hnf l hlmem
    simpa using this
  have := segLoop_noFrom (splitLines file) 0 0 [] hl
  rw [splitLines_flatten] at this
  simp only [List.nil_append, Nat.zero_add] at this
  rw [iterate_mbox_messages, this]
  simp [List.isEmpty_iff, hne]

theorem segmenter_empty_and_no_marker_witness :
    ([104, 10] : List Byte) ≠ [] ∧ hasNoFromLine [104, 10] = true ∧
      iterate_mbox_messages [] = [] ∧
      iterate_mbox_messages [104, 10] = [(0, ([104, 10] : List Byte).length, [104, 10])] :=
  ⟨by decide, by decide, segmenter_empty_and_no_marker [104, 10] (by decide) (by decide)⟩

end MboxViewer

namespace MboxViewer

theorem emails_insertFts (db : DBState) (rowid : Nat) (f : EmailFields) :
    (insertFts db rowid f).emails = db.emails := rfl

theorem emails_processMessage (db : DBState) (f : EmailFields) (s e : Nat) :
    (processMessage db f s e).emails = (insertOrIgnoreEmail db f s e).emails := by
  unfold processMessage
  split <;> rfl

theorem insertOrIgnoreEmail_dup (db : DBState) (f : EmailFields) (s e : Nat)
    (h : hasMessageId db f.message_id = true) :
    insertOrIgnoreEmail db f s e = db := by
  simp [insertOrIgnoreEmail, h]

theorem processMessage_dup_zero (db : DBState) (f : EmailFields) (s e : Nat)
    (h : hasMessageId db f.message_id = true) (hz : db.lastInsertRowid = 0) :
    processMessage db f s e = db := by
  unfold processMessage
  rw [insertOrIgnoreEmail_dup db f s e h, hz]
  simp

theorem hasMessageId_processMessage_self (db : DBState) (f : EmailFields) (s e : Nat) :
    hasMessageId (processMessage db f s e) f.message_id = true := by
  rw [hasMessageId, emails_processMessage]
  unfold insertOrIgnoreEmail
  split
  · rename_i h
    exact h
  · simp [hasMessageId]

theorem hasMessageId_processMessage_mono (db : DBState) (f : EmailFields)
    (s e : Nat) (mid : String) (h : hasMessageId db mid = true) :
    hasMessageId (processMessage db f s e) mid = true := by
  rw [hasMessageId, emails_processMessage]
  unfold insertOrIgnoreEmail
  split
  · exact h
  · rw [hasMessageId] at h
    simp only [List.any_append, Bool.or_eq_true]
    exact Or.inl h

theorem hasMessageId_runSkipping_mono (msgs : List MboxMessage) :
    ∀ (db : DBState) (mid : String), hasMessageId db mid = true →
      hasMessageId (runSkipping db msgs) mid = true := by
  induction msgs with
  | nil => intro db mid h; exact h
  | cons m rest ih =>
    intro db mid h
    simp only [runSkipping, List.foldl_cons]
    by_cases hr : m.insertRaises
    · simp only [hr, if_true]
      exact ih db mid h
    · simp only [hr, if_false]
      exact ih _ mid (hasMessageId_processMessage_mono db m.fields _ _ mid h)

theorem mids_present_after_runSkipping (msgs : List MboxMessage) :
    ∀ db : DBState, (∀ m ∈ msgs, m.insertRaises = false) →
      ∀ m ∈ msgs, hasMessageId (runSkipping db msgs) m.fields.message_id = true := by
  induction msgs with
  | nil => intro db _ m hm; simp at hm
  | cons m0 rest ih =>
    intro db hclean m hm
    have h0 : m0.insertRaises = false := hclean m0 (List.mem_cons_self _ _)
    simp only [runSkipping, List.foldl_cons, h0, if_false]
    rcases List.mem_cons.mp hm with h | h
    · subst h
      exact hasMessageId_runSkipping_mono rest _ _
        (hasMessageId_processMessage_self db m.fields _ _)
    · exact ih _ (fun x hx => hclean x (List.mem_cons_of_mem _ hx)) m h

theorem indexLoop_parses (msgs : List MboxMessage) :
    ∀ (db : DBState) (count : Nat), (∀ m ∈ msgs, m.parseOk = true) →
      indexLoop db count msgs = .normal (count + msgs.length) (runSkipping db msgs) := by
  induction msgs with
  | nil => intro db count _; simp [indexLoop, runSkipping]
  | cons m rest ih =>
    intro db count h
    have hp : m.parseOk = true := h m (List.mem_cons_self _ _)
    have hrest : ∀ x ∈ rest, x.parseOk = true :=
      fun x hx => h x (List.mem_cons_of_mem _ hx)
    cases hr : m.insertRaises with
    | true =>
      simp only [indexLoop, hp, if_true, hr]
      rw [ih db (count + 1) hrest]
      have hskip : runSkipping db (m :: rest) = runSkipping db rest := by
        simp [runSkipping, hr]
      rw [hskip, List.length_cons]
      have harith : count + 1 + rest.length = count + (rest.length + 1) := by omega
      rw [harith]
    | false =>
      simp only [indexLoop, hp, if_true, hr, Bool.false_eq_true, if_false]
      rw [ih _ (count + 1) hrest]
      have hskip : runSkipping db (m :: rest)
          = runSkipping (processMessage db m.fields m.startOffset m.endOffset) rest := by
        simp [runSkipping, hr]
      rw [hskip, List.length_cons]
      have harith : count + 1 + rest.length = count + (rest.length + 1) := by omega
      rw [harith]

theorem indexLoop_allDup (msgs : List MboxMessage) :
    ∀ (db : DBState) (count : Nat), db.lastInsertRowid = 0 →
      (∀ m ∈ msgs, hasMessageId db m.fields.message_id = true) →
      (∀ m ∈ msgs, m.parseOk = true) →
      (∀ m ∈ msgs, m.insertRaises = false) →
      indexLoop db count msgs = .normal (count + msgs.length) db := by
  induction msgs with
  | nil => intro db count _ _ _ _; simp [indexLoop]
  | cons m rest ih =>
    intro db count hz hdup hp hr
    have hp0 : m.parseOk = true := hp m (List.mem_cons_self _ _)
    have hr0 : m.insertRaises = false := hr m (List.mem_cons_self _ _)
    have hd0 : hasMessageId db m.fields.message_id = true :=
      hdup m (List.mem_cons_self _ _)
    simp only [indexLoop, hp0, if_true, hr0, Bool.false_eq_true, if_false]
    rw [processMessage_dup_zero db m.fields _ _ hd0 hz]
    rw [ih db (count + 1) hz
      (fun x hx => hdup x (List.mem_cons_of_mem _ hx))
      (fun x hx => hp x (List.mem_cons_of_mem _ hx))
      (fun x hx => hr x (List.mem_cons_of_mem _ hx))]
    rw [List.length_cons]
    have harith : count + 1 + rest.length = count + (rest.length + 1) := by omega
    rw [harith]

theorem pairwise_mids_processMessage (db : DBState) (f : EmailFields) (s e : Nat)
    (h : db.emails.Pairwise (fun a b => a.message_id ≠ b.message_id)) :
    (processMessage db f s e).emails.Pairwise
      (fun a b => a.message_id ≠ b.message_id) := by
  rw [emails_processMessage]
  unfold insertOrIgnoreEmail
  split
  · exact h
  · rename_i hnew
    rw [List.pairwise_append]
    refine ⟨h, List.pairwise_singleton _ _, ?_⟩
    intro a ha b hb
    simp only [List.mem_singleton] at hb
    subst hb
    intro heq
    have : hasMessageId db f.message_id = true := by
      rw [hasMessageId, List.any_eq_true]
      exact ⟨a, ha, by simp [heq]⟩
    simp [this] at hnew

theorem pairwise_mids_runSkipping (msgs : List MboxMessage) :
    ∀ db : DBState, db.emails.Pairwise (fun a b => a.message_id ≠ b.message_id) →
      (runSkipping db msgs).emails.Pairwise
        (fun a b => a.message_id ≠ b.message_id) := by
  induction msgs with
  | nil => intro db h; exact h
  | cons m rest ih =>
    intro db h
    simp only [runSkipping, List.foldl_cons]
    by_cases hr : m.insertRaises
    · simp only [hr, if_true]; exact ih db h
    · simp only [hr, if_false]
      exact ih _ (pairwise_mids_processMessage db m.fields _ _ h)

end MboxViewer

namespace MboxViewer

/-- C4: for a run without exceptions, running create_index a second
time against the same message sequence and the store produced by the
first run leaves the emails table unchanged: the rerun returns the
very same store (only the fresh connection's last-insert rowid is
reset to 0), the rows' message_ids are pairwise distinct, and an
INSERT OR IGNORE whose message_id already has a row leaves the store
untouched, so the later occurrence is skipped, not inserted or
overwritten (first-seen wins). -/
theorem create_index_idempotent (msgs : List MboxMessage)
    (h : cleanRun msgs = true) :
    ∃ db1 : DBState,
      create_index emptyDB msgs = .normal msgs.length db1 ∧
      create_index db1 msgs = .normal msgs.length ⟨db1.emails, db1.fts, 0⟩ ∧
      db1.emails.Pairwise (fun a b => a.message_id ≠ b.message_id) ∧
      ∀ (db : DBState) (f : EmailFields) (s e : Nat),
        hasMessageId db f.message_id = true → insertOrIgnoreEmail db f s e = db := by
  have hboth : ∀ m ∈ msgs, (m.parseOk && !m.insertRaises) = true :=
    List.all_eq_true.mp h
  have hp : ∀ m ∈ msgs, m.parseOk = true := by
    intro m hm
    exact (Bool.and_eq_true _ _ |>.mp (hboth m hm)).1
  have hr : ∀ m ∈ msgs, m.insertRaises = false := by
    intro m hm
    have := (Bool.and_eq_true _ _ |>.mp (hboth m hm)).2
    simpa using this
  refine ⟨runSkipping ⟨[], [], 0⟩ msgs, ?_, ?_, ?_, ?_⟩
  · have := indexLoop_parses msgs ⟨[], [], 0⟩ 0 hp
    rw [Nat.zero_add] at this
    exact this
  · have hpresent : ∀ m ∈ msgs,
        hasMessageId ⟨(runSkipping ⟨[], [], 0⟩ msgs).emails,
          (runSkipping ⟨[], [], 0⟩ msgs).fts, 0⟩ m.fields.message_id = true := by
      intro m hm
      exact mids_present_after_runSkipping msgs ⟨[], [], 0⟩ hr m hm
    have := indexLoop_allDup msgs
      ⟨(runSkipping ⟨[], [], 0⟩ msgs).emails, (runSkipping ⟨[], [], 0⟩ msgs).fts, 0⟩
      0 rfl hpresent hp hr
    rw [Nat.zero_add] at this
    exact this
  · exact pairwise_mids_runSkipping msgs ⟨[], [], 0⟩ List.Pairwise.nil
  · exact fun db f s e hdup => insertOrIgnoreEmail_dup db f s e hdup

theorem create_index_idempotent_witness :
    cleanRun twoMsgs = true ∧
      ∃ db1 : DBState,
        create_index emptyDB twoMsgs = .normal twoMsgs.length db1 ∧
        create_index db1 twoMsgs = .normal twoMsgs.length ⟨db1.emails, db1.fts, 0⟩ ∧
        db1.emails.Pairwise (fun a b => a.message_id ≠ b.message_id) ∧
        ∀ (db : DBState) (f : EmailFields) (s e : Nat),
          hasMessageId db f.message_id = true → insertOrIgnoreEmail db f s e = db :=
  ⟨by decide, create_index_idempotent twoMsgs (by decide)⟩

/-- C5 (violation exhibited): indexing an archive whose second message
repeats the first one's Message-ID inserts one email row, yet the
full-text table receives two entries, both with rowid 1 — the ignored
duplicate still contributes a full-text entry because cur.lastrowid
keeps the previous successful insert's rowid, so the `last_id > 0`
guard does not detect the ignored insert. -/
theorem duplicate_contributes_spurious_fts_entry :
    create_index emptyDB dupMsgs = .normal 2 dupResultDB ∧
      dupResultDB.emails.length = 1 ∧
      dupResultDB.fts.length = 2 ∧
      (dupResultDB.fts.filter (fun fr => fr.rowid == 1)).length = 2 := by
  refine ⟨?_, by decide, by decide, by decide⟩
  decide

/-- C6 counterexample: a single message on which the parse step raises
makes the whole run take the run-level exception path and exit with a
non-zero status instead of being skipped. -/
theorem parse_error_aborts_run :
    create_index emptyDB [parseFailMsg] = .fatalExit := by
  decide

/-- C6 amended: when every message parses, an exception inside the
per-message insert block is caught and the run continues, terminating
normally with a summary count of all parsed messages and a store in
which the raising messages simply contributed nothing; an exception in
the parse step itself, however, is outside the per-message handler and
aborts the run with a non-zero exit status. -/
theorem create_index_tolerates_insert_errors (db0 : DBState)
    (msgs : List MboxMessage) (h : ∀ m ∈ msgs, m.parseOk = true) :
    create_index db0 msgs = .normal msgs.length
      (runSkipping ⟨db0.emails, db0.fts, 0⟩ msgs) := by
  rw [create_index, indexLoop_parses msgs _ 0 h, Nat.zero_add]

theorem create_index_tolerates_insert_errors_witness :
    (∀ m ∈ insertFaultMsgs, m.parseOk = true) ∧
      create_index emptyDB insertFaultMsgs = .normal insertFaultMsgs.length
        (runSkipping ⟨emptyDB.emails, emptyDB.fts, 0⟩ insertFaultMsgs) :=
  ⟨by decide, create_index_tolerates_insert_errors emptyDB insertFaultMsgs (by decide)⟩

end MboxViewer

namespace MboxViewer

theorem phraseBody_escape (xs : List Char) :
    phraseBody ('"' :: '"' :: xs) =
      match phraseBody xs with
      | some p => some ('"' :: p.1, p.2)
      | none => none := rfl

theorem phraseBody_other (c : Char) (xs : List Char) (hc : c ≠ '"') :
    phraseBody (c :: xs) =
      match phraseBody xs with
      | some p => some (c :: p.1, p.2)
      | none => none := by
  cases xs with
  | nil =>
    rw [phraseBody.eq_3 c [] (by intro r h; cases h), if_neg hc]
  | cons d rest =>
    by_cases hd : d = '"'
    · subst hd
      rw [phraseBody.eq_2, if_neg hc]
    · rw [phraseBody.eq_3 c (d :: rest)
        (by intro r h; injection h with h1 _; exact hd h1), if_neg hc]

theorem phraseBody_replaceQuotes (s : List Char) :
    phraseBody (replaceQuotes s ++ ['"']) = some (s, []) := by
  induction s with
  | nil => rfl
  | cons c cs ih =>
    by_cases hc : c = '"'
    · subst hc
      have h1 : replaceQuotes ('"' :: cs) ++ ['"'] =
          '"' :: '"' :: (replaceQuotes cs ++ ['"']) := rfl
      rw [h1, phraseBody_escape, ih]
    · have h1 : replaceQuotes (c :: cs) ++ ['"'] =
          c :: (replaceQuotes cs ++ ['"']) := by
        simp [replaceQuotes, hc]
      rw [h1, phraseBody_other c _ hc, ih]

/-- C7: the term search_and_display submits to the full-text engine is
the raw query wrapped in double quotes with embedded quotes doubled,
and the engine reads it as a single complete string literal whose
content is exactly the raw query — so quotes, boolean operators and
wildcards in the user's input are matched as literal text, never
parsed as query syntax. -/
theorem sanitized_term_is_literal_phrase (s : List Char) :
    fts5LiteralPhrase (sanitizedTerm s) = some s := by
  have h1 : fts5LiteralPhrase (sanitizedTerm s) =
      match phraseBody (replaceQuotes s ++ ['"']) with
      | some (content, []) => some content
      | _ => none := rfl
  rw [h1, phraseBody_replaceQuotes]

theorem clampPage_currentPage_le (n : Nat) (x : PageState) :
    (clampPage n x).currentPage ≤ totalPages n (clampPage n x).pageSize - 1 :=
  Nat.min_le_right _ _

theorem clampPage_of_le (n : Nat) (s : PageState)
    (h : s.currentPage ≤ totalPages n s.pageSize - 1) :
    clampPage n s = s := by
  cases s with
  | mk p sz =>
    simp only [clampPage]
    congr 1
    exact Nat.min_eq_left h

theorem clampPage_idem (n : Nat) (s : PageState) :
    clampPage n (clampPage n s) = clampPage n s :=
  clampPage_of_le n _ (clampPage_currentPage_le n s)

/-- C8: from any displayed state, every transition of the pagination
loop leaves current_page within [0, total_pages - 1]: 'n' on the last
page and 'p' on the first page report the boundary and leave the state
unchanged, and '+'/'-' move page_size by a step of 10 clamped to
[10, 100], after which current_page is re-clamped against the page
count recomputed for the new page size. -/
theorem pagination_transitions (db : DBState) (file : List Byte)
    (results : List SearchRow) (s : PageState)
    (_hn : 1 ≤ results.length) (_hsz : 10 ≤ s.pageSize)
    (hpage : s.currentPage ≤ totalPages results.length s.pageSize - 1) :
    (∀ c : UserChoice,
      (searchCycle db file results s c).1.currentPage ≤
        totalPages results.length (searchCycle db file results s c).1.pageSize - 1) ∧
    (s.currentPage = totalPages results.length s.pageSize - 1 →
      searchCycle db file results s .nextPage = (s, .alreadyLastPage)) ∧
    (s.currentPage = 0 →
      searchCycle db file results s .prevPage = (s, .alreadyFirstPage)) ∧
    (searchCycle db file results s .growSize =
      (⟨min s.currentPage (totalPages results.length (min 100 (s.pageSize + 10)) - 1),
        min 100 (s.pageSize + 10)⟩,
       .pageSizeChanged (min 100 (s.pageSize + 10)))) ∧
    (searchCycle db file results s .shrinkSize =
      (⟨min s.currentPage (totalPages results.length (max 10 (s.pageSize - 10)) - 1),
        max 10 (s.pageSize - 10)⟩,
       .pageSizeChanged (max 10 (s.pageSize - 10)))) := by
  have hclamp : clampPage results.length s = s := clampPage_of_le _ s hpage
  refine ⟨fun c => clampPage_currentPage_le _ _, ?_, ?_, ?_, ?_⟩
  · intro hlast
    simp only [searchCycle, hclamp, handleChoice]
    rw [if_neg (by omega)]
    simp [hclamp]
  · intro hfirst
    simp only [searchCycle, hclamp, handleChoice]
    rw [if_neg (by omega)]
    simp [hclamp]
  · simp only [searchCycle]
    rw [hclamp]
    simp only [handleChoice, clampPage]
  · simp only [searchCycle]
    rw [hclamp]
    simp only [handleChoice, clampPage]

theorem pagination_transitions_witness :
    1 ≤ rows25.length ∧ 10 ≤ (⟨1, 20⟩ : PageState).pageSize ∧
      (⟨1, 20⟩ : PageState).currentPage ≤
        totalPages rows25.length (⟨1, 20⟩ : PageState).pageSize - 1 ∧
      ((∀ c : UserChoice,
        (searchCycle emptyDB [] rows25 ⟨1, 20⟩ c).1.currentPage ≤
          totalPages rows25.length
            (searchCycle emptyDB [] rows25 ⟨1, 20⟩ c).1.pageSize - 1) ∧
      ((⟨1, 20⟩ : PageState).currentPage =
          totalPages rows25.length (⟨1, 20⟩ : PageState).pageSize - 1 →
        searchCycle emptyDB [] rows25 ⟨1, 20⟩ .nextPage =
          (⟨1, 20⟩, .alreadyLastPage)) ∧
      ((⟨1, 20⟩ : PageState).currentPage = 0 →
        searchCycle emptyDB [] rows25 ⟨1, 20⟩ .prevPage =
          (⟨1, 20⟩, .alreadyFirstPage)) ∧
      (searchCycle emptyDB [] rows25 ⟨1, 20⟩ .growSize =
        (⟨min (⟨1, 20⟩ : PageState).currentPage
            (totalPages rows25.length (min 100 ((⟨1, 20⟩ : PageState).pageSize + 10)) - 1),
          min 100 ((⟨1, 20⟩ : PageState).pageSize + 10)⟩,
         .pageSizeChanged (min 100 ((⟨1, 20⟩ : PageState).pageSize + 10)))) ∧
      (searchCycle emptyDB [] rows25 ⟨1, 20⟩ .shrinkSize =
        (⟨min (⟨1, 20⟩ : PageState).currentPage
            (totalPages rows25.length (max 10 ((⟨1, 20⟩ : PageState).pageSize - 10)) - 1),
          max 10 ((⟨1, 20⟩ : PageState).pageSize - 10)⟩,
         .pageSizeChanged (max 10 ((⟨1, 20⟩ : PageState).pageSize - 10))))) :=
  ⟨by decide, by decide, by decide,
    pagination_transitions emptyDB [] rows25 ⟨1, 20⟩ (by decide) (by decide) (by decide)⟩

end MboxViewer

namespace MboxViewer

/-- C9: asking view_email for an id with no row in the emails table
reports that the email could not be found and returns: the interactive
loop's state after any numeric selection is still the (re-clamped)
listing state, and the session does not end. -/
theorem view_missing_id_not_found (db : DBState) (file : List Byte) (rid : Nat)
    (h : db.emails.find? (fun r => r.id == rid) = none) :
    viewEmail db file rid = .notFound ∧
    ∀ (results : List SearchRow) (s : PageState) (k : Int),
      (searchCycle db file results s (.selectNum k)).1 = clampPage results.length s ∧
      (searchCycle db file results s (.selectNum k)).2 ≠ .quitLoop := by
  constructor
  · rw [viewEmail, h]
  · intro results s k
    simp only [searchCycle, handleChoice]
    split
    · exact ⟨clampPage_idem _ _, by simp⟩
    · exact ⟨clampPage_idem _ _, by simp⟩

theorem view_missing_id_not_found_witness :
    oneRowDB.emails.find? (fun r => r.id == 2) = none ∧
      (viewEmail oneRowDB exampleMbox 2 = .notFound ∧
      ∀ (results : List SearchRow) (s : PageState) (k : Int),
        (searchCycle oneRowDB exampleMbox results s (.selectNum k)).1 =
          clampPage results.length s ∧
        (searchCycle oneRowDB exampleMbox results s (.selectNum k)).2 ≠ .quitLoop) :=
  ⟨by decide, view_missing_id_not_found oneRowDB exampleMbox 2 (by decide)⟩

/-- C10: a numeric selection is a 1-based index into the full result
list, independent of the displayed page: for 1 ≤ k ≤ len(results) the
cycle opens result k's detail view (via its emails id) and keeps the
listing state; any integer outside that range reports an invalid
number and re-renders the same state. -/
theorem select_indexes_full_results (db : DBState) (file : List Byte)
    (results : List SearchRow) (s : PageState) (k : Int) :
    (1 ≤ k → k ≤ (results.length : Int) →
      searchCycle db file results s (.selectNum k) =
        (clampPage results.length s,
         .viewed (viewEmail db file ((results.getD (k - 1).toNat defaultRow).id)))) ∧
    (k < 1 ∨ (results.length : Int) < k →
      searchCycle db file results s (.selectNum k) =
        (clampPage results.length s, .invalidNumber)) := by
  constructor
  · intro h1 h2
    simp only [searchCycle, handleChoice]
    rw [if_pos ⟨by omega, by omega⟩]
    rw [clampPage_idem]
  · intro hout
    simp only [searchCycle, handleChoice]
    rw [if_neg (by omega)]
    rw [clampPage_idem]

theorem select_indexes_full_results_witness :
    (1 ≤ (3 : Int) ∧ (3 : Int) ≤ (threeRows.length : Int) ∧
      searchCycle oneRowDB exampleMbox threeRows ⟨0, 20⟩ (.selectNum 3) =
        (clampPage threeRows.length ⟨0, 20⟩,
         .viewed (viewEmail oneRowDB exampleMbox
           ((threeRows.getD ((3 : Int) - 1).toNat defaultRow).id)))) ∧
    ((4 : Int) < 1 ∨ (threeRows.length : Int) < (4 : Int)) ∧
      searchCycle oneRowDB exampleMbox threeRows ⟨0, 20⟩ (.selectNum 4) =
        (clampPage threeRows.length ⟨0, 20⟩, .invalidNumber) :=
  ⟨⟨by decide, by decide,
    (select_indexes_full_results oneRowDB exampleMbox threeRows ⟨0, 20⟩ 3).1
      (by decide) (by decide)⟩,
   by decide,
   (select_indexes_full_results oneRowDB exampleMbox threeRows ⟨0, 20⟩ 4).2
     (by decide)⟩

end MboxViewer
